import Mathlib

/-!
Verification of the gog-backup pipeline.

This file gives a shallow embedding of the core of the gog-backup program:

* `safePath` — the title sanitization from `cmd/gog-backup/main.go`;
* `fetchLoopF` / `fetchDetailsOne` — the worklist expansion of one catalog
  item into download tasks, from `fetchDetails` in `cmd/gog-backup/main.go`;
* `downloadFileLocal`, `runAttempt`, `runTask` — the local backend's transfer
  function and retry loop (the `local` package);
* `downloadFileS3` — the s3 backend's transfer function
  (`internal/gog-backup/backend/s3/download.go`);
* `localSelectReader` / `s3SelectReader` / `s3SelectBody` — the rate-limit
  stream wrapping in both backends;
* `mkDownloadBucket` / `mkUploadBucket` — the token-bucket construction in
  `main`;
* `signalStep` / `signalRun`, `emitProducts` / `walkPages` — the shutdown
  coordinator (`signalHandler`) and the catalog walker (`generateGames`),
  with the grace timer and signal arrivals modelled as events.

Machine state that the program reads and writes (local files, s3 objects,
version markers) is modelled as an association list from names to byte
sequences.  Theorems at the end settle the specification claims.
-/

/-! Character and string helpers mirroring the Go standard library. -/

/-- Go's `unicode.IsSpace` on the Latin-1 range, which is the range
`strings.TrimSpace` distinguishes for the titles that occur here:
space, tab, newline, vertical tab, form feed, carriage return,
next line (U+0085) and no-break space (U+00A0). -/
def goIsSpace (c : Char) : Bool :=
  c = ' ' || c = Char.ofNat 9 || c = Char.ofNat 10 || c = Char.ofNat 11 ||
  c = Char.ofNat 12 || c = Char.ofNat 13 || c = Char.ofNat 133 || c = Char.ofNat 160

/-- Go's `strings.TrimSpace`: drop whitespace from both ends. -/
def goTrimSpace (s : List Char) : List Char :=
  (((s.dropWhile goIsSpace).reverse).dropWhile goIsSpace).reverse

/-- Body of `safePath` from `cmd/gog-backup/main.go`:
`strings.Replace(strings.Replace(strings.TrimSpace(path), "/", "", -1), ":", " -", -1)` —
trim whitespace, delete every '/', then replace every ':' by " -". -/
def safePathChars (s : List Char) : List Char :=
  ((goTrimSpace s).filter (fun c => c ≠ '/')).flatMap
    (fun c => if c = ':' then [' ', '-'] else [c])

/-- `safePath` from `cmd/gog-backup/main.go` on `String`. -/
def safePath (s : String) : String :=
  String.mk (safePathChars s.data)

/-! Byte-level store.  Local files, s3 objects and version markers are all
named byte sequences; the store is an association list with the usual
lookup / overwrite / delete operations. -/

abbrev Bytes := List Nat

abbrev FS := List (String × Bytes)

def fsGet : FS → String → Option Bytes
  | [], _ => none
  | (k, v) :: rest, key => if k = key then some v else fsGet rest key

def fsSet : FS → String → Bytes → FS
  | [], key, v => [(key, v)]
  | (k, w) :: rest, key, v =>
      if k = key then (k, v) :: rest else (k, w) :: fsSet rest key v

def fsDel : FS → String → FS
  | [], _ => []
  | (k, w) :: rest, key =>
      if k = key then fsDel rest key else (k, w) :: fsDel rest key

/-- The byte content of a Go string, as `[]byte(s)` produces it (one entry
per code unit is collapsed to one entry per character, which is faithful for
the comparisons performed by the program). -/
def strBytes (s : String) : Bytes :=
  s.data.map Char.toNat

/-! Catalog data model, from `pkg/gog` as used by `cmd/gog-backup/main.go`. -/

/-- One downloadable entry (an extra, or a platform-specific primary file):
display name, human-readable size, version tag and manual-download path. -/
structure DLItem where
  name : String
  size : String
  version : String
  manualDownloadURL : String
deriving DecidableEq

/-- Platform-grouped primary downloads of one download group. -/
structure Platforms where
  windows : List DLItem
  mac : List DLItem
  linux : List DLItem
deriving DecidableEq

/-- One primary download group (the program only uses the first group). -/
structure DownloadGroup where
  platforms : Platforms
deriving DecidableEq

/-- `gog.GameDetails`: title, extras, download groups and nested DLC items. -/
inductive GameDetails where
  | mk (title : String) (extras : List DLItem) (downloads : List DownloadGroup)
      (dlcs : List GameDetails)

def GameDetails.title : GameDetails → String
  | .mk t _ _ _ => t

def GameDetails.extras : GameDetails → List DLItem
  | .mk _ e _ _ => e

def GameDetails.downloads : GameDetails → List DownloadGroup
  | .mk _ _ d _ => d

def GameDetails.dlcs : GameDetails → List GameDetails
  | .mk _ _ _ l => l

/-- `backend.GogFile`: one artifact task handed to a transfer worker. -/
structure GogFile where
  name : String
  url : String
  file : String
  version : String
deriving DecidableEq

/-- `gog.EmbedEndpoint` (the package is outside the sources at hand; the
claims settled here do not depend on its value). -/
def EmbedEndpoint : String := "https://embed.gog.com"

/-- Extras task built in `fetchDetails`: destination `<path>/Extras`
(terminal color codes of the display name are elided). -/
def mkExtraTask (path title : String) (e : DLItem) : GogFile :=
  { name := "Extra for " ++ title ++ ": " ++ e.name ++ " [" ++ e.size ++ "]"
  , url := EmbedEndpoint ++ e.manualDownloadURL
  , file := path ++ "/Extras"
  , version := e.version }

/-- Primary-download task built in `fetchDetails`: destination
`<path>/<platform tag>` where the tag is `Windows`, `Mac` or `Linux`. -/
def mkGameTask (path platformTag : String) (d : DLItem) : GogFile :=
  { name := d.name ++ " [" ++ platformTag ++ "] [" ++ d.size ++ "]"
  , url := EmbedEndpoint ++ d.manualDownloadURL
  , file := path ++ "/" ++ platformTag
  , version := d.version }

/-- Number of items in one catalog tree (each node once), for the worklist
fuel: the expansion loop runs exactly one iteration per item. -/
def gameCountList : List GameDetails → Nat
  | [] => 0
  | .mk _ _ _ ds :: rest => 1 + gameCountList ds + gameCountList rest

/-- Body of the expansion loop of `fetchDetails` in `cmd/gog-backup/main.go`:
the growing `games` slice of `(Path, Details)` pairs is the worklist; every
iteration takes `path := games[i].Path[1:]` (dropping the first character),
emits one extras task per extra, the first download group's per-platform
tasks, and appends each DLC with path `path ++ "/" ++ safePath dlc.Title`.
The first component collects the primary-queue tasks, the second the
extras-queue tasks, each in emission order.  The fuel argument bounds the
number of iterations; `fetchDetailsOne` supplies exactly enough. -/
def fetchLoopF : Nat → List (String × GameDetails) → List GogFile × List GogFile
  | 0, _ => ([], [])
  | _ + 1, [] => ([], [])
  | fuel + 1, (p, g) :: rest =>
      let path := p.drop 1
      let extraTasks := g.extras.map (mkExtraTask path g.title)
      let gameTasks :=
        match g.downloads with
        | [] => []
        | dl :: _ =>
            dl.platforms.windows.map (mkGameTask path "Windows") ++
            dl.platforms.mac.map (mkGameTask path "Mac") ++
            dl.platforms.linux.map (mkGameTask path "Linux")
      let children := g.dlcs.map (fun d => (path ++ "/" ++ safePath d.title, d))
      let r := fetchLoopF fuel (rest ++ children)
      (gameTasks ++ r.1, extraTasks ++ r.2)

/-- Expansion of one successfully fetched top-level item, seeded as in the
source with the pair `("/" ++ safePath result.Title, result)`. -/
def fetchDetailsOne (g : GameDetails) : List GogFile × List GogFile :=
  fetchLoopF (gameCountList [g]) [("/" ++ safePath g.title, g)]

/-! Local backend (`local` package): the per-task retry loop and the
`downloadFile` transfer function, with destinations modelled in an `FS`. -/

/-- Destination name `path + "/." + filename + ".tmp"` used for the
in-progress copy. -/
def tmpName (path filename : String) : String :=
  path ++ "/." ++ filename ++ ".tmp"

/-- Final destination name `path + "/" + filename`. -/
def outName (path filename : String) : String :=
  path ++ "/" ++ filename

/-- Version marker name `path + "/." + filename + ".version"`. -/
def versionName (path filename : String) : String :=
  path ++ "/." ++ filename ++ ".version"

/-- Writing `new` from offset 0 into a file that already holds `old`:
`os.OpenFile` with `O_WRONLY|O_CREATE` (and no truncation flag) keeps the
old content, so bytes of `old` beyond `new.length` survive. -/
def overwriteFrom0 (old new : Bytes) : Bytes :=
  new ++ old.drop new.length

/-- Environment of one `downloadFile` call: whether `os.OpenFile` succeeds,
the bytes `io.Copy` manages to write to the temporary file (all of the
source on success, a partial run on failure), whether the copy completes,
and whether `os.Rename` succeeds. -/
structure CopyAttempt where
  openOk : Bool
  bytes : Bytes
  copyOk : Bool
  renameOk : Bool
deriving DecidableEq

/-- Observable destination events of the worker loop. -/
inductive Ev where
  | netOpen (url : String)
  | netClose
  | markerRead (key : String)
  | statFile (key : String)
  | tmpWrite (key : String)
  | renamed (tmp out : String)
  | markerWrite (key : String)
deriving DecidableEq

/-- `downloadFile` of the local backend (`part_000` of the sources): refuse
an empty filename before touching the destination, open the temporary name
without truncation, copy, and on success rename the temporary name onto the
final name.  Directory creation (`os.MkdirAll`) has no observable effect in
this store and is not given a failure mode.  Returns the new store, the
destination events, and whether the call returned without error. -/
def downloadFileLocal (fs : FS) (path filename : String) (c : CopyAttempt) :
    FS × List Ev × Bool :=
  if filename = "" then (fs, [], false)
  else if c.openOk = false then (fs, [], false)
  else
    let t := tmpName path filename
    let content := overwriteFrom0 ((fsGet fs t).getD []) c.bytes
    let fs1 := fsSet fs t content
    if c.copyOk = false then (fs1, [Ev.tmpWrite t], false)
    else if c.renameOk = false then (fs1, [Ev.tmpWrite t], false)
    else (fsSet (fsDel fs1 t) (outName path filename) content,
          [Ev.tmpWrite t, Ev.renamed t (outName path filename)], true)

/-- Environment of one iteration of the retry loop: whether
`client.DownloadFile` errors, the filename it resolves, the copy
environment, and whether the version-marker write succeeds. -/
structure NetAttempt where
  connectErr : Bool
  filename : String
  copy : CopyAttempt
  markerWriteOk : Bool
deriving DecidableEq

/-- How one iteration of the retry loop ended: `connectFail` and
`transferFail` make the loop continue with the next attempt; the three
others break out of it. -/
inductive AttemptOutcome where
  | connectFail
  | skippedVersion
  | skippedExists
  | transferFail
  | finished
deriving DecidableEq

/-- Tail of one loop iteration after the skip checks declined (lines 63–80
of the local backend): run `downloadFile`, close the source stream, and on
success write the version marker when the task is versioned; a failing
marker write is logged and accepted (the outcome is still `finished`). -/
def transferStep (fs : FS) (path : String) (d : GogFile) (a : NetAttempt)
    (pre : List Ev) : FS × List Ev × AttemptOutcome :=
  match downloadFileLocal fs path a.filename a.copy with
  | (fs1, tevs, ok) =>
    if ok = false then (fs1, pre ++ tevs ++ [Ev.netClose], AttemptOutcome.transferFail)
    else if d.version ≠ "" then
      let vKey := versionName path a.filename
      let fs2 := if a.markerWriteOk then fsSet fs1 vKey (strBytes d.version) else fs1
      (fs2, pre ++ tevs ++ [Ev.netClose, Ev.markerWrite vKey], AttemptOutcome.finished)
    else (fs1, pre ++ tevs ++ [Ev.netClose], AttemptOutcome.finished)

/-- One iteration of the local backend's retry loop (lines 29–81):
`client.DownloadFile` is called first (resolving the filename needs the
response), then the skip checks run — marker equality for versioned tasks,
final-file existence for unversioned ones — and only then the transfer. -/
def runAttempt (fs : FS) (path : String) (d : GogFile) (a : NetAttempt) :
    FS × List Ev × AttemptOutcome :=
  if a.connectErr then (fs, [Ev.netOpen d.url], AttemptOutcome.connectFail)
  else
    let f := a.filename
    if d.version ≠ "" then
      let vKey := versionName path f
      if (fsGet fs vKey).getD [] = strBytes d.version then
        (fs, [Ev.netOpen d.url, Ev.markerRead vKey, Ev.netClose],
         AttemptOutcome.skippedVersion)
      else
        transferStep fs path d a [Ev.netOpen d.url, Ev.markerRead vKey]
    else
      if (fsGet fs (outName path f)).isSome then
        (fs, [Ev.netOpen d.url, Ev.statFile (outName path f), Ev.netClose],
         AttemptOutcome.skippedExists)
      else
        transferStep fs path d a [Ev.netOpen d.url, Ev.statFile (outName path f)]

/-- The retry loop `for i := 1; i <= *retries; i++` of the local backend:
attempt `i` draws its environment from `env i`; a `continue` outcome moves
to the next attempt, anything else breaks.  Returns the final store, the
concatenated events and the per-attempt outcomes in order. -/
def runTask : FS → String → GogFile → (Nat → NetAttempt) → Nat → Nat →
    FS × List Ev × List AttemptOutcome
  | fs, _, _, _, _, 0 => (fs, [], [])
  | fs, path, d, env, i, remaining + 1 =>
      match runAttempt fs path d (env i) with
      | (fs1, evs, o) =>
        if o = AttemptOutcome.connectFail ∨ o = AttemptOutcome.transferFail then
          match runTask fs1 path d env (i + 1) remaining with
          | (fs2, evs2, os) => (fs2, evs ++ evs2, o :: os)
        else (fs1, evs, [o])

/-- One whole task processed by the local backend handler: the destination
directory is `*targetDir + "/" + d.File` and the attempt counter starts
at 1. -/
def runTaskTop (targetDir : String) (fs : FS) (d : GogFile)
    (env : Nat → NetAttempt) (retries : Nat) : FS × List Ev × List AttemptOutcome :=
  runTask fs (targetDir ++ "/" ++ d.file) d env 1 retries

/-! S3 backend (`internal/gog-backup/backend/s3/download.go`). -/

/-- Go's `path.Join` for the already-clean, slash-normal segments the
program builds (the general function also cleans `.` and `..` segments,
which do not arise here): empty parts are dropped, the rest joined by
`/`. -/
def pathJoin (a b : String) : String :=
  if a = "" then b else if b = "" then a else a ++ "/" ++ b

/-- Environment of one s3 `downloadFile` call: whether the multipart upload
of the temporary key succeeds, the uploaded bytes, and whether the
`CopyObject` promotion succeeds. -/
structure S3Upload where
  uploadOk : Bool
  bytes : Bytes
  copyOk : Bool
deriving DecidableEq

/-- `downloadFile` of the s3 backend (lines 89–120): upload the source to
`path.Join(basepath, "."+filename+".tmp")`, then copy that object onto
`path.Join(basepath, filename)` and delete the temporary object (the delete
is deferred, so it runs whether or not the copy succeeded; a failed upload
leaves no object).  There is no guard against an empty filename. -/
def downloadFileS3 (fs : FS) (basepath filename : String) (u : S3Upload) :
    FS × Bool :=
  let tmpKey := pathJoin basepath ("." ++ filename ++ ".tmp")
  let key := pathJoin basepath filename
  if u.uploadOk = false then (fs, false)
  else
    let fs1 := fsSet fs tmpKey u.bytes
    if u.copyOk then (fsDel (fsSet fs1 key u.bytes) tmpKey, true)
    else (fsDel fs1 tmpKey, false)

/-! Rate-limit wiring: bucket construction in `main` and the stream
wrapping in the two backends. -/

/-- `ratelimit.Bucket` as far as construction is observable: the steady
fill rate (a `float64` in the source, integral in every call site) and the
burst capacity (an `int64`). -/
structure Bucket where
  rate : Nat
  capacity : Nat
deriving DecidableEq

/-- A worker's view of the source stream: either the raw response stream or
`ratelimit.Reader` around it with the given bucket pointer (`none` is Go's
`nil`). -/
inductive RLReader where
  | plain
  | throttled (b : Option Bucket)
deriving DecidableEq

/-- Reader selection in the local backend (lines 30–41 of `part_000`):
`if downloadBucket == nil { reader = ratelimit.Reader(readerTmp, downloadBucket) } else { reader = readerTmp }`. -/
def localSelectReader (downloadBucket : Option Bucket) : RLReader :=
  if downloadBucket.isNone then RLReader.throttled downloadBucket else RLReader.plain

/-- Reader selection in the s3 backend handler (lines 130–141):
`if downloadBucket == nil { reader = readerTmp } else { reader = ratelimit.Reader(readerTmp, downloadBucket) }`. -/
def s3SelectReader (downloadBucket : Option Bucket) : RLReader :=
  if downloadBucket.isNone then RLReader.plain else RLReader.throttled downloadBucket

/-- Upload-body selection in the s3 backend's `downloadFile`:
`if uploadBucket == nil { Body = reader } else { Body = ratelimit.Reader(reader, uploadBucket) }`. -/
def s3SelectBody (uploadBucket : Option Bucket) : RLReader :=
  if uploadBucket.isNone then RLReader.plain else RLReader.throttled uploadBucket

/-- Download-bucket construction in `main` (flag values in KiB/s):
`ratelimit.NewBucketWithRate(float64(*limitDownload*1024), int64(*limitDownload*1024))`
when the limit is positive, `nil` otherwise. -/
def mkDownloadBucket (limitDownload : Nat) : Option Bucket :=
  if limitDownload > 0 then some ⟨limitDownload * 1024, limitDownload * 1024⟩ else none

/-- Upload-bucket construction in `main`:
`ratelimit.NewBucketWithRate(float64(*limitUpload*1024), int64(*limitDownload*1024))`
when the upload limit is positive, `nil` otherwise — the capacity argument
reads the download flag. -/
def mkUploadBucket (limitDownload limitUpload : Nat) : Option Bucket :=
  if limitUpload > 0 then some ⟨limitUpload * 1024, limitDownload * 1024⟩ else none

/-! Shutdown coordinator (`signalHandler`) and catalog walker
(`generateGames`), with signal arrivals and the expiry of the grace timer
as events. -/

/-- Events observed by `signalHandler`: an interruption signal (SIGINT or
SIGTERM) or the expiry of the `cleanup-timeout` grace timer. -/
inductive SigEvent where
  | interrupt
  | timerExpire
deriving DecidableEq

/-- Phases of `signalHandler`: waiting for the first signal, draining
within the grace period, or terminated by `log.Fatalf`. -/
inductive SigPhase where
  | running
  | stopRequested
  | terminated
deriving DecidableEq

/-- Coordinator state: the phase plus how many times the stop notification
has been broadcast (`finished <- true; close(finished)` counts once). -/
structure SigState where
  phase : SigPhase
  broadcasts : Nat
deriving DecidableEq

/-- One step of `signalHandler`: the first signal broadcasts the stop
notification and starts the grace timer; in the draining phase a second
signal or the timer expiry calls `log.Fatalf`; the timer does not exist
before the first signal. -/
def signalStep : SigState → SigEvent → SigState
  | ⟨SigPhase.running, n⟩, SigEvent.interrupt => ⟨SigPhase.stopRequested, n + 1⟩
  | ⟨SigPhase.running, n⟩, SigEvent.timerExpire => ⟨SigPhase.running, n⟩
  | ⟨SigPhase.stopRequested, n⟩, _ => ⟨SigPhase.terminated, n⟩
  | ⟨SigPhase.terminated, n⟩, _ => ⟨SigPhase.terminated, n⟩

/-- `signalHandler` over a whole event history, from the initial state. -/
def signalRun (evs : List SigEvent) : SigState :=
  evs.foldl signalStep ⟨SigPhase.running, 0⟩

/-- Emission of one page's products in `generateGames`: before each send
the `select` may observe the stop notification (the oracle `stopF` says at
which send indices the `finished` channel fires); observing it returns at
once.  Yields the emitted products, the next send index, and whether the
walk halted. -/
def emitProducts : List Nat → (Nat → Bool) → Nat → List Nat × Nat × Bool
  | [], _, k => ([], k, false)
  | p :: rest, stopF, k =>
      if stopF k then ([], k, true)
      else
        match emitProducts rest stopF (k + 1) with
        | (out, k2, halted) => (p :: out, k2, halted)

/-- The page loop of `generateGames` over the remote's pages (the remote
reports a stable page count, so the `page < totalPages` loop visits exactly
the given pages in order); once a page's emission observed the stop
notification, no further page is fetched. -/
def walkPages : List (List Nat) → (Nat → Bool) → Nat → List Nat
  | [], _, _ => []
  | pg :: rest, stopF, k =>
      match emitProducts pg stopF k with
      | (out, k2, halted) => if halted then out else out ++ walkPages rest stopF k2

/-! Helper lemmas about the store and the destination names. -/

theorem fsGet_fsSet_self (m : FS) (k : String) (v : Bytes) :
    fsGet (fsSet m k v) k = some v := by
  induction m with
  | nil => simp [fsSet, fsGet]
  | cons hd tl ih =>
      obtain ⟨a, b⟩ := hd
      by_cases h : a = k
      · simp [fsSet, fsGet, h]
      · simp [fsSet, fsGet, h, ih]

theorem fsGet_fsSet_ne (m : FS) (k k' : String) (v : Bytes) (h : k ≠ k') :
    fsGet (fsSet m k v) k' = fsGet m k' := by
  induction m with
  | nil => simp [fsSet, fsGet, h]
  | cons hd tl ih =>
      obtain ⟨a, b⟩ := hd
      by_cases ha : a = k
      · subst ha
        simp [fsSet, fsGet, h]
      · simp [fsSet, fsGet, ha, ih]

theorem fsGet_fsDel_ne (m : FS) (k k' : String) (h : k ≠ k') :
    fsGet (fsDel m k) k' = fsGet m k' := by
  induction m with
  | nil => simp [fsDel]
  | cons hd tl ih =>
      obtain ⟨a, b⟩ := hd
      by_cases ha : a = k
      · subst ha
        simp [fsDel, fsGet, h, ih, Ne.symm h]
      · simp [fsDel, fsGet, ha, ih]

theorem tmpName_ne_outName (p f : String) : tmpName p f ≠ outName p f := by
  intro h
  have hl := congrArg String.length h
  have e1 : ("/." : String).length = 2 := rfl
  have e2 : (".tmp" : String).length = 4 := rfl
  have e3 : ("/" : String).length = 1 := rfl
  simp only [tmpName, outName, String.length_append, e1, e2, e3] at hl
  omega

theorem versionName_ne_outName (p f : String) : versionName p f ≠ outName p f := by
  intro h
  have hl := congrArg String.length h
  have e1 : ("/." : String).length = 2 := rfl
  have e2 : (".version" : String).length = 8 := rfl
  have e3 : ("/" : String).length = 1 := rfl
  simp only [versionName, outName, String.length_append, e1, e2, e3] at hl
  omega

theorem dfl_fail_evs (fs : FS) (p f : String) (c : CopyAttempt)
    (h : (downloadFileLocal fs p f c).2.2 = false) :
    (downloadFileLocal fs p f c).2.1 = [] ∨
    (downloadFileLocal fs p f c).2.1 = [Ev.tmpWrite (tmpName p f)] := by
  unfold downloadFileLocal at *
  split_ifs at * <;> simp_all

theorem transferStep_fail_no_ev (fs : FS) (path : String) (d : GogFile)
    (a : NetAttempt) (pre : List Ev)
    (hpre : ∀ e ∈ pre, (∀ t o, e ≠ Ev.renamed t o) ∧ ∀ k, e ≠ Ev.markerWrite k)
    (h : (transferStep fs path d a pre).2.2 = AttemptOutcome.transferFail) :
    (∀ t o, Ev.renamed t o ∉ (transferStep fs path d a pre).2.1) ∧
    (∀ k, Ev.markerWrite k ∉ (transferStep fs path d a pre).2.1) := by
  rcases hdl : downloadFileLocal fs path a.filename a.copy with ⟨fs1, tevs, ok⟩
  by_cases hok : ok = false
  · subst hok
    have htevs := dfl_fail_evs fs path a.filename a.copy (by simp [hdl])
    simp only [hdl] at htevs
    constructor
    · intro t o hmem
      rcases htevs with he | he <;>
        · simp [transferStep, hdl, he, List.mem_append] at hmem
          exact (hpre _ hmem).1 t o rfl
    · intro k hmem
      rcases htevs with he | he <;>
        · simp [transferStep, hdl, he, List.mem_append] at hmem
          exact (hpre _ hmem).2 k rfl
  · exfalso
    simp only [transferStep, hdl] at h
    rw [if_neg hok] at h
    by_cases hv : d.version ≠ "" <;> simp [hv] at h

theorem transferStep_not_connectFail (fs : FS) (path : String) (d : GogFile)
    (a : NetAttempt) (pre : List Ev) :
    (transferStep fs path d a pre).2.2 ≠ AttemptOutcome.connectFail := by
  rcases hdl : downloadFileLocal fs path a.filename a.copy with ⟨fs1, tevs, ok⟩
  simp only [transferStep, hdl]
  split_ifs <;> simp

theorem runAttempt_fail_no_ev (fs : FS) (path : String) (d : GogFile) (a : NetAttempt)
    (h : (runAttempt fs path d a).2.2 = AttemptOutcome.connectFail ∨
         (runAttempt fs path d a).2.2 = AttemptOutcome.transferFail) :
    (∀ t o, Ev.renamed t o ∉ (runAttempt fs path d a).2.1) ∧
    (∀ k, Ev.markerWrite k ∉ (runAttempt fs path d a).2.1) := by
  by_cases hc : a.connectErr
  · constructor
    · intro t o hmem
      simp [runAttempt, hc] at hmem
    · intro k hmem
      simp [runAttempt, hc] at hmem
  · by_cases hv : d.version = ""
    · by_cases hm : (fsGet fs (outName path a.filename)).isSome
      · exfalso
        simp [runAttempt, hc, hv, hm] at h
      · have heq : runAttempt fs path d a =
            transferStep fs path d a
              [Ev.netOpen d.url, Ev.statFile (outName path a.filename)] := by
          simp [runAttempt, hc, hv, hm]
        rw [heq] at h ⊢
        rcases h with h | h
        · exact absurd h (transferStep_not_connectFail _ _ _ _ _)
        · exact transferStep_fail_no_ev _ _ _ _ _
            (by intro e he; fin_cases he <;> simp) h
    · by_cases hm : (fsGet fs (versionName path a.filename)).getD [] = strBytes d.version
      · exfalso
        simp [runAttempt, hc, hv, hm] at h
      · have heq : runAttempt fs path d a =
            transferStep fs path d a
              [Ev.netOpen d.url, Ev.markerRead (versionName path a.filename)] := by
          simp [runAttempt, hc, hv, hm]
        rw [heq] at h ⊢
        rcases h with h | h
        · exact absurd h (transferStep_not_connectFail _ _ _ _ _)
        · exact transferStep_fail_no_ev _ _ _ _ _
            (by intro e he; fin_cases he <;> simp) h

theorem runTask_allFail (path : String) (d : GogFile) (env : Nat → NetAttempt) :
    ∀ (remaining : Nat) (fs : FS) (i : Nat),
      (∀ o ∈ (runTask fs path d env i remaining).2.2,
          o = AttemptOutcome.connectFail ∨ o = AttemptOutcome.transferFail) →
      (runTask fs path d env i remaining).2.2.length = remaining ∧
      (∀ t o', Ev.renamed t o' ∉ (runTask fs path d env i remaining).2.1) ∧
      (∀ k, Ev.markerWrite k ∉ (runTask fs path d env i remaining).2.1) := by
  intro remaining
  induction remaining with
  | zero =>
      intro fs i _
      simp [runTask]
  | succ n ih =>
      intro fs i hall
      rcases hra : runAttempt fs path d (env i) with ⟨fs1, evs, o⟩
      by_cases ho : o = AttemptOutcome.connectFail ∨ o = AttemptOutcome.transferFail
      · rcases hrt : runTask fs1 path d env (i + 1) n with ⟨fs2, evs2, os⟩
        have hres : runTask fs path d env i (n + 1) = (fs2, evs ++ evs2, o :: os) := by
          simp only [runTask, hra]
          rw [if_pos ho, hrt]
        rw [hres] at hall ⊢
        have hos : ∀ o' ∈ os,
            o' = AttemptOutcome.connectFail ∨ o' = AttemptOutcome.transferFail :=
          fun o' ho' => hall o' (List.mem_cons_of_mem _ ho')
        have ihx := ih fs1 (i + 1) (by rw [hrt]; exact hos)
        rw [hrt] at ihx
        have hev := runAttempt_fail_no_ev fs path d (env i) (by rw [hra]; exact ho)
        rw [hra] at hev
        refine ⟨by simp [ihx.1], ?_, ?_⟩
        · intro t o' hmem
          rcases List.mem_append.mp hmem with hm | hm
          · exact hev.1 t o' hm
          · exact ihx.2.1 t o' hm
        · intro k hmem
          rcases List.mem_append.mp hmem with hm | hm
          · exact hev.2 k hm
          · exact ihx.2.2 k hm
      · have hres : runTask fs path d env i (n + 1) = (fs1, evs, [o]) := by
          simp only [runTask, hra]
          rw [if_neg ho]
        rw [hres] at hall
        exact absurd (hall o (by simp)) ho

theorem signalFold_stuck (evs : List SigEvent) (n : Nat) (ph : SigPhase)
    (h : ph ≠ SigPhase.running) :
    (evs.foldl signalStep ⟨ph, n⟩).broadcasts = n := by
  induction evs generalizing ph n with
  | nil => rfl
  | cons e rest ih =>
      rw [List.foldl_cons]
      cases ph with
      | running => exact absurd rfl h
      | stopRequested =>
          have hstep : signalStep ⟨SigPhase.stopRequested, n⟩ e = ⟨SigPhase.terminated, n⟩ := by
            cases e <;> rfl
          rw [hstep]
          exact ih n SigPhase.terminated (by simp)
      | terminated =>
          have hstep : signalStep ⟨SigPhase.terminated, n⟩ e = ⟨SigPhase.terminated, n⟩ := by
            cases e <;> rfl
          rw [hstep]
          exact ih n SigPhase.terminated (by simp)

theorem signalFold_running (evs : List SigEvent) (n : Nat) :
    (evs.foldl signalStep ⟨SigPhase.running, n⟩).broadcasts =
      if SigEvent.interrupt ∈ evs then n + 1 else n := by
  induction evs generalizing n with
  | nil => simp
  | cons e rest ih =>
      cases e with
      | interrupt =>
          rw [List.foldl_cons]
          have hstep : signalStep ⟨SigPhase.running, n⟩ SigEvent.interrupt =
              ⟨SigPhase.stopRequested, n + 1⟩ := rfl
          rw [hstep, signalFold_stuck rest (n + 1) SigPhase.stopRequested (by simp)]
          simp
      | timerExpire =>
          rw [List.foldl_cons]
          have hstep : signalStep ⟨SigPhase.running, n⟩ SigEvent.timerExpire =
              ⟨SigPhase.running, n⟩ := rfl
          rw [hstep, ih]
          simp

theorem emitProducts_not_halted (pg : List Nat) (stopF : Nat → Bool) :
    ∀ k, (emitProducts pg stopF k).2.2 = false → (emitProducts pg stopF k).1 = pg := by
  induction pg with
  | nil => intro k _; rfl
  | cons p rest ih =>
      intro k h
      by_cases hs : stopF k
      · simp [emitProducts, hs] at h
      · rcases he : emitProducts rest stopF (k + 1) with ⟨out, k2, halted⟩
        simp only [emitProducts, hs, if_neg, he] at h ⊢
        simp at h ⊢
        have := ih (k + 1)
        rw [he] at this
        exact this h

theorem emitProducts_sound (pg : List Nat) (stopF : Nat → Bool) :
    ∀ k, ∃ rest, pg = (emitProducts pg stopF k).1 ++ rest := by
  induction pg with
  | nil => intro k; exact ⟨[], rfl⟩
  | cons p rest ih =>
      intro k
      by_cases hs : stopF k
      · exact ⟨p :: rest, by simp [emitProducts, hs]⟩
      · rcases he : emitProducts rest stopF (k + 1) with ⟨out, k2, halted⟩
        rcases ih (k + 1) with ⟨r, hr⟩
        rw [he] at hr
        exact ⟨r, by simp [emitProducts, hs, he]; exact hr⟩

theorem walkPages_emitted (pages : List (List Nat)) (stopF : Nat → Bool) :
    ∀ k, ∃ rest, pages.flatten = walkPages pages stopF k ++ rest := by
  induction pages with
  | nil => intro k; exact ⟨[], rfl⟩
  | cons pg pages ih =>
      intro k
      rcases he : emitProducts pg stopF k with ⟨out, k2, halted⟩
      cases halted with
      | true =>
          rcases emitProducts_sound pg stopF k with ⟨r, hr⟩
          rw [he] at hr
          refine ⟨r ++ pages.flatten, ?_⟩
          simp only [walkPages, he, List.flatten_cons, if_true]
          rw [hr, List.append_assoc]
      | false =>
          have h2 := emitProducts_not_halted pg stopF k
          rw [he] at h2
          have hout : out = pg := h2 rfl
          rcases ih k2 with ⟨r, hr⟩
          refine ⟨r, ?_⟩
          simp only [walkPages, he, List.flatten_cons]
          rw [if_neg (by simp), hout, hr, List.append_assoc]

/-- C9 counterexample: the title "Foo: Bar/Baz" does not sanitize to
"Foo -BarBaz" — the space that followed the colon in the input survives the
replacement, giving "Foo - BarBaz". -/
theorem C9_counterexample : ¬ (safePath "Foo: Bar/Baz" = "Foo -BarBaz") := by
  decide

/-- C9 (amended): sanitization trims whitespace, deletes every '/' and
replaces every ':' by " -" as claimed, so no '/' or ':' survives in any
sanitized title; but the concrete title "Foo: Bar/Baz" sanitizes to
"Foo - BarBaz" (with the input's post-colon space kept), not "Foo -BarBaz". -/
theorem C9_sanitize_amended :
    safePath "Foo: Bar/Baz" = "Foo - BarBaz" ∧
    ∀ s : String, '/' ∉ (safePath s).data ∧ ':' ∉ (safePath s).data := by
  refine ⟨by decide, fun s => ⟨?_, ?_⟩⟩
  · intro hmem
    have hm : '/' ∈ safePathChars s.data := hmem
    rcases List.mem_flatMap.mp hm with ⟨c, hc, hfc⟩
    have hcne : c ≠ '/' := by simpa using List.of_mem_filter hc
    by_cases h : c = ':'
    · simp [h] at hfc
    · simp [h] at hfc
      exact hcne hfc.symm
  · intro hmem
    have hm : ':' ∈ safePathChars s.data := hmem
    rcases List.mem_flatMap.mp hm with ⟨c, hc, hfc⟩
    by_cases h : c = ':'
    · simp [h] at hfc
    · simp [h] at hfc
      exact h hfc.symm

/-- Concrete catalog item for the recursive-expansion claim: a root titled
"Root" with one extra, no primary downloads, and two DLC sub-items "Sub1"
and "Sub2" with one extra each. -/
def c1Root : GameDetails :=
  GameDetails.mk "Root" [⟨"e0", "1 MB", "", "/u0"⟩] []
    [GameDetails.mk "Sub1" [⟨"e1", "1 MB", "", "/u1"⟩] [] [],
     GameDetails.mk "Sub2" [⟨"e2", "1 MB", "", "/u2"⟩] [] []]

/-- C1 (code_bug): the resolver does emit exactly three extras tasks for a
root with two sub-items carrying one extra each, but the sub-item
destinations are "oot/Sub1/Extras" and "oot/Sub2/Extras" — the slice
`games[i].Path[1:]`, meant to strip the artificial leading "/" of the root
seed, also strips the first character of the parent path of every appended
sub-item — instead of the claimed "Root/Sub1/Extras", "Root/Sub2/Extras". -/
theorem C1_expansion_eval :
    (fetchDetailsOne c1Root).2.length = 3 ∧
    (fetchDetailsOne c1Root).2.map (fun t => t.file) =
      ["Root/Extras", "oot/Sub1/Extras", "oot/Sub2/Extras"] ∧
    (fetchDetailsOne c1Root).2.map (fun t => t.file) ≠
      ["Root/Extras", "Root/Sub1/Extras", "Root/Sub2/Extras"] := by
  have h : gameCountList [c1Root] = 3 := by simp [c1Root, gameCountList]
  rw [fetchDetailsOne, h]
  refine ⟨by decide, by decide, by decide⟩

/-- C6 (code_bug): the local backend's nil test is inverted — with no
download limit configured it wraps the stream in a rate-limited reader
around a nil bucket, and with a configured bucket it hands back the raw
stream; the s3 backend wires both directions the intended way. -/
theorem C6_rate_wrap_eval :
    localSelectReader none = RLReader.throttled none ∧
    localSelectReader (some ⟨1024, 1024⟩) = RLReader.plain ∧
    RLReader.throttled none ≠ RLReader.plain ∧
    RLReader.plain ≠ RLReader.throttled (some ⟨1024, 1024⟩) ∧
    s3SelectReader none = RLReader.plain ∧
    s3SelectReader (some ⟨1024, 1024⟩) = RLReader.throttled (some ⟨1024, 1024⟩) ∧
    s3SelectBody none = RLReader.plain ∧
    s3SelectBody (some ⟨2048, 2048⟩) = RLReader.throttled (some ⟨2048, 2048⟩) := by
  refine ⟨rfl, rfl, by decide, by decide, rfl, rfl, rfl, rfl⟩

/-- C7 (code_bug): the download bucket is sized from the download limit as
claimed, but with limit-download = 1 KiB/s and limit-upload = 2 KiB/s the
upload bucket gets burst capacity 1024 (one second of the DOWNLOAD rate)
rather than the claimed 2048. -/
theorem C7_bucket_eval :
    mkDownloadBucket 1 = some ⟨1 * 1024, 1 * 1024⟩ ∧
    mkUploadBucket 1 2 = some ⟨2 * 1024, 1 * 1024⟩ ∧
    mkUploadBucket 1 2 ≠ some ⟨2 * 1024, 2 * 1024⟩ := by
  refine ⟨rfl, rfl, by decide⟩

/-- C10 (code_bug): the local backend refuses an empty resolved filename
before any destination write, but the s3 backend has no such guard — with
an empty filename and a successful upload and copy it stores the artifact
bytes at the bare base path key. -/
theorem C10_empty_filename_eval :
    downloadFileLocal [] "dir" "" ⟨true, [7], true, true⟩ = ([], [], false) ∧
    downloadFileS3 [] "base" "" ⟨true, [7], true⟩ = ([("base", [7])], true) ∧
    ([("base", [7])] : FS) ≠ ([] : FS) := by
  refine ⟨rfl, by decide, by decide⟩

/-- C2 counterexample: attempt 1 writes the partial bytes [1,2,3] to the
temporary name and fails; attempt 2 succeeds with the single byte [9].
Because the temporary file is reopened without truncation, the promoted
file holds [9,2,3] — not exactly the successful attempt's bytes [9] — while
the failed attempt alone left no final file. -/
theorem C2_counterexample :
    fsGet (downloadFileLocal [] "p" "f" ⟨true, [1, 2, 3], false, true⟩).1
        (outName "p" "f") = none ∧
    fsGet (downloadFileLocal (downloadFileLocal [] "p" "f"
          ⟨true, [1, 2, 3], false, true⟩).1 "p" "f" ⟨true, [9], true, true⟩).1
        (outName "p" "f") = some [9, 2, 3] ∧
    some ([9, 2, 3] : Bytes) ≠ some ([9] : Bytes) := by
  refine ⟨by decide, by decide, by decide⟩

theorem dfl_evs_shape (fs : FS) (p f : String) (c : CopyAttempt) :
    (downloadFileLocal fs p f c).2.1 = [] ∨
    (downloadFileLocal fs p f c).2.1 = [Ev.tmpWrite (tmpName p f)] ∨
    (downloadFileLocal fs p f c).2.1 =
      [Ev.tmpWrite (tmpName p f), Ev.renamed (tmpName p f) (outName p f)] := by
  unfold downloadFileLocal
  split_ifs <;> simp

/-- C2 (amended): a failed attempt never makes the final filename appear,
and a subsequent fully successful attempt promotes a file that BEGINS with
exactly the successful attempt's bytes — but, because the temporary name is
reopened without truncation, a tail of a longer earlier partial write may
remain after them. -/
theorem C2_tmp_overwrite_amended (fs : FS) (p f : String) (c1 c2 : CopyAttempt)
    (hf : f ≠ "") (h1 : c1.copyOk = false)
    (h2o : c2.openOk = true) (h2c : c2.copyOk = true) (h2r : c2.renameOk = true) :
    (downloadFileLocal fs p f c1).2.2 = false ∧
    fsGet (downloadFileLocal fs p f c1).1 (outName p f) = fsGet fs (outName p f) ∧
    (downloadFileLocal (downloadFileLocal fs p f c1).1 p f c2).2.2 = true ∧
    ∃ rest, fsGet (downloadFileLocal (downloadFileLocal fs p f c1).1 p f c2).1
        (outName p f) = some (c2.bytes ++ rest) := by
  have hto := tmpName_ne_outName p f
  have hsucc : ∀ m : FS, (downloadFileLocal m p f c2).2.2 = true ∧
      ∃ rest, fsGet (downloadFileLocal m p f c2).1 (outName p f) =
        some (c2.bytes ++ rest) := by
    intro m
    have hB : downloadFileLocal m p f c2 =
        (fsSet (fsDel (fsSet m (tmpName p f)
            (overwriteFrom0 ((fsGet m (tmpName p f)).getD []) c2.bytes)) (tmpName p f))
          (outName p f) (overwriteFrom0 ((fsGet m (tmpName p f)).getD []) c2.bytes),
         [Ev.tmpWrite (tmpName p f),
          Ev.renamed (tmpName p f) (outName p f)], true) := by
      simp [downloadFileLocal, hf, h2o, h2c, h2r]
    rw [hB]
    refine ⟨rfl, ⟨((fsGet m (tmpName p f)).getD []).drop c2.bytes.length, ?_⟩⟩
    exact fsGet_fsSet_self _ _ _
  by_cases ho1 : c1.openOk = true
  · have hA : downloadFileLocal fs p f c1 =
        (fsSet fs (tmpName p f)
          (overwriteFrom0 ((fsGet fs (tmpName p f)).getD []) c1.bytes),
         [Ev.tmpWrite (tmpName p f)], false) := by
      simp [downloadFileLocal, hf, ho1, h1]
    rw [hA]
    exact ⟨rfl, fsGet_fsSet_ne _ _ _ _ hto, hsucc _⟩
  · have ho1' : c1.openOk = false := by simpa using ho1
    have hA : downloadFileLocal fs p f c1 = (fs, [], false) := by
      simp [downloadFileLocal, hf, ho1']
    rw [hA]
    exact ⟨rfl, rfl, hsucc _⟩

/-- C2 witness: the amended statement at the counterexample's inputs. -/
theorem C2_tmp_overwrite_amended_witness :
    (downloadFileLocal [] "p" "f" ⟨true, [1, 2, 3], false, true⟩).2.2 = false ∧
    fsGet (downloadFileLocal [] "p" "f" ⟨true, [1, 2, 3], false, true⟩).1
        (outName "p" "f") = fsGet [] (outName "p" "f") ∧
    (downloadFileLocal (downloadFileLocal [] "p" "f"
        ⟨true, [1, 2, 3], false, true⟩).1 "p" "f" ⟨true, [9], true, true⟩).2.2 = true ∧
    ∃ rest, fsGet (downloadFileLocal (downloadFileLocal [] "p" "f"
        ⟨true, [1, 2, 3], false, true⟩).1 "p" "f" ⟨true, [9], true, true⟩).1
        (outName "p" "f") = some ([9] ++ rest) :=
  C2_tmp_overwrite_amended [] "p" "f" ⟨true, [1, 2, 3], false, true⟩
    ⟨true, [9], true, true⟩ (by decide) rfl rfl rfl rfl

/-- C3 counterexample: a task with version "v" whose destination marker
already holds "v" is indeed skipped on the first attempt — but the trace of
that very run contains a network open: `client.DownloadFile` runs before
the marker check, because the marker's name needs the resolved filename.
This refutes the claimed "no network read". -/
theorem C3_counterexample :
    (runTaskTop "T" [(versionName "T/G" "f", strBytes "v")] ⟨"n", "u", "G", "v"⟩
        (fun _ => ⟨false, "f", ⟨true, [], true, true⟩, true⟩) 3).2.2 =
      [AttemptOutcome.skippedVersion] ∧
    Ev.netOpen "u" ∈ (runTaskTop "T" [(versionName "T/G" "f", strBytes "v")]
        ⟨"n", "u", "G", "v"⟩
        (fun _ => ⟨false, "f", ⟨true, [], true, true⟩, true⟩) 3).2.1 := by
  refine ⟨by decide, by decide⟩

/-- C3 (amended): when the task's version tag is non-empty and the marker
at the destination equals it, the task completes as success-by-skip on the
first attempt with no retries and no write at all — the store is returned
unchanged and the trace is exactly open / marker read / close (so one
network read does occur, but nothing is written). -/
theorem C3_skip_amended (targetDir : String) (fs : FS) (d : GogFile)
    (env : Nat → NetAttempt) (retries : Nat)
    (hr : 1 ≤ retries)
    (hconn : (env 1).connectErr = false)
    (hv : d.version ≠ "")
    (hm : (fsGet fs (versionName (targetDir ++ "/" ++ d.file) (env 1).filename)).getD []
        = strBytes d.version) :
    runTaskTop targetDir fs d env retries =
      (fs, [Ev.netOpen d.url,
            Ev.markerRead (versionName (targetDir ++ "/" ++ d.file) (env 1).filename),
            Ev.netClose],
       [AttemptOutcome.skippedVersion]) := by
  obtain ⟨r, rfl⟩ : ∃ r, retries = r + 1 := ⟨retries - 1, by omega⟩
  have hatt : runAttempt fs (targetDir ++ "/" ++ d.file) d (env 1) =
      (fs, [Ev.netOpen d.url,
            Ev.markerRead (versionName (targetDir ++ "/" ++ d.file) (env 1).filename),
            Ev.netClose],
       AttemptOutcome.skippedVersion) := by
    simp [runAttempt, hconn, hv, hm]
  simp only [runTaskTop, runTask, hatt]
  rw [if_neg (by simp)]

/-- C3 witness: the amended skip statement at a concrete marker state. -/
theorem C3_skip_amended_witness :
    runTaskTop "T" [(versionName "T/G" "g", strBytes "v")] ⟨"n", "u", "G", "v"⟩
        (fun _ => ⟨false, "g", ⟨true, [], true, true⟩, true⟩) 3 =
      ([(versionName "T/G" "g", strBytes "v")],
       [Ev.netOpen "u", Ev.markerRead (versionName "T/G" "g"), Ev.netClose],
       [AttemptOutcome.skippedVersion]) :=
  C3_skip_amended "T" [(versionName "T/G" "g", strBytes "v")] ⟨"n", "u", "G", "v"⟩
    (fun _ => ⟨false, "g", ⟨true, [], true, true⟩, true⟩) 3
    (by decide) rfl (by decide) (by decide)

/-- C4 (confirmed): within one attempt of the worker loop, the version
marker write is performed if and only if the attempt's transfer completed
without error (outcome `finished`) and the task carries a non-empty version
tag.  Skips, connection failures and transfer failures never write a
marker; a completed transfer of a versioned task always performs the write
(whose own success is a separate, non-fatal concern). -/
theorem C4_marker_iff (fs : FS) (path : String) (d : GogFile) (a : NetAttempt) :
    (∃ k, Ev.markerWrite k ∈ (runAttempt fs path d a).2.1) ↔
    ((runAttempt fs path d a).2.2 = AttemptOutcome.finished ∧ d.version ≠ "") := by
  by_cases hc : a.connectErr
  · simp [runAttempt, hc]
  · by_cases hv : d.version = ""
    · by_cases hm : (fsGet fs (outName path a.filename)).isSome
      · simp [runAttempt, hc, hv, hm]
      · have hsh := dfl_evs_shape fs path a.filename a.copy
        rcases hdl : downloadFileLocal fs path a.filename a.copy with ⟨fs1, tevs, ok⟩
        rw [hdl] at hsh
        simp only at hsh
        cases ok <;>
          rcases hsh with he | he | he <;>
            simp [runAttempt, transferStep, hc, hv, hm, hdl, he]
    · by_cases hm : (fsGet fs (versionName path a.filename)).getD [] = strBytes d.version
      · simp [runAttempt, hc, hv, hm]
      · have hsh := dfl_evs_shape fs path a.filename a.copy
        rcases hdl : downloadFileLocal fs path a.filename a.copy with ⟨fs1, tevs, ok⟩
        rw [hdl] at hsh
        simp only at hsh
        cases ok <;>
          rcases hsh with he | he | he <;>
            simp [runAttempt, transferStep, hc, hv, hm, hdl, he]

/-- C5 (confirmed): a task whose every attempt fails is attempted exactly
`retries` times and abandoned: the outcome list has length `retries`, no
promotion (rename) event ever occurs, and no marker write ever occurs. -/
theorem C5_retry_bound (targetDir : String) (fs : FS) (d : GogFile)
    (env : Nat → NetAttempt) (retries : Nat)
    (hall : ∀ o ∈ (runTaskTop targetDir fs d env retries).2.2,
        o = AttemptOutcome.connectFail ∨ o = AttemptOutcome.transferFail) :
    (runTaskTop targetDir fs d env retries).2.2.length = retries ∧
    (∀ t o', Ev.renamed t o' ∉ (runTaskTop targetDir fs d env retries).2.1) ∧
    (∀ k, Ev.markerWrite k ∉ (runTaskTop targetDir fs d env retries).2.1) :=
  runTask_allFail (targetDir ++ "/" ++ d.file) d env retries fs 1 hall

/-- C5 witness: two attempts, both failing to connect, use exactly the
configured two tries. -/
theorem C5_retry_bound_witness :
    (runTaskTop "T" [] ⟨"n", "u", "G", "v"⟩
        (fun _ => ⟨true, "f", ⟨true, [], true, true⟩, true⟩) 2).2.2.length = 2 :=
  (C5_retry_bound "T" [] ⟨"n", "u", "G", "v"⟩
      (fun _ => ⟨true, "f", ⟨true, [], true, true⟩, true⟩) 2 (by decide)).1

/-- C8 (confirmed, over the event model): the stop notification is
broadcast exactly once — once per history containing at least one
interruption, never more; from the draining phase, either a second signal
or the grace-timer expiry moves the coordinator to `terminated`; and the
walker with any stop oracle emits a prefix of the full catalog — once the
stop is observed nothing further is emitted, while already-emitted items
are untouched. -/
theorem C8_shutdown :
    (∀ evs : List SigEvent,
        (signalRun evs).broadcasts = if SigEvent.interrupt ∈ evs then 1 else 0) ∧
    (∀ (s : SigState) (e : SigEvent), s.phase = SigPhase.stopRequested →
        (signalStep s e).phase = SigPhase.terminated) ∧
    (∀ (pages : List (List Nat)) (stopF : Nat → Bool) (k : Nat),
        ∃ rest, pages.flatten = walkPages pages stopF k ++ rest) := by
  refine ⟨?_, ?_, ?_⟩
  · intro evs
    have h := signalFold_running evs 0
    simpa [signalRun] using h
  · intro s e h
    rcases s with ⟨ph, n⟩
    simp only at h
    subst h
    cases e <;> rfl
  · intro pages stopF k
    exact walkPages_emitted pages stopF k

/-- C8 witness: one interruption broadcasts once; a second signal and the
timer expiry both terminate; a walk stopped after one emission yields a
prefix of the catalog. -/
theorem C8_shutdown_witness :
    (signalRun [SigEvent.interrupt]).broadcasts = 1 ∧
    (signalStep ⟨SigPhase.stopRequested, 1⟩ SigEvent.interrupt).phase =
      SigPhase.terminated ∧
    (signalStep ⟨SigPhase.stopRequested, 1⟩ SigEvent.timerExpire).phase =
      SigPhase.terminated ∧
    ∃ rest, ([[10, 20], [30]] : List (List Nat)).flatten =
        walkPages [[10, 20], [30]] (fun k => decide (1 ≤ k)) 0 ++ rest := by
  refine ⟨?_, C8_shutdown.2.1 _ _ rfl, C8_shutdown.2.1 _ _ rfl,
    C8_shutdown.2.2 [[10, 20], [30]] (fun k => decide (1 ≤ k)) 0⟩
  have h := C8_shutdown.1 [SigEvent.interrupt]
  simpa using h
